import Mathlib

/-!
Verification of the `hql` arena tree, traversal layer, selector operations and
query-language compiler (shallow embedding of `src/hql`).

The Rust tree (`src/hql/src/tree.rs`) stores nodes in a `Vec` indexed by
`NodeID` (a `usize`); mutating methods take `&mut self` and return
`Option<&Node>`.  We embed a mutating method as a function
`Tree T -> ... -> Tree T × Option Unit`: the first component is the post-state
(the state is returned even when the method returns `None`, matching in-place
mutation), the second is `some ()` exactly when the Rust method returns
`Some(_)` (the returned `&Node` is always recoverable via `node_ref`, so it is
not duplicated in the result).  A Rust `unwrap()` failure (panic) is modelled
as a `none` result at the point of the panic; every theorem below only
exercises inputs on which the Rust code does not panic.
-/

set_option autoImplicit false

namespace Hql

/-! ## ASCII / string helpers (Rust `str` operations used by the code) -/

/-- ASCII lower-casing of one character, as done byte-wise by Rust's
`eq_ignore_ascii_case`. -/
def asciiLower (c : Char) : Char :=
  if 'A' ≤ c ∧ c ≤ 'Z' then Char.ofNat (c.toNat + 32) else c

/-- Rust `str::eq_ignore_ascii_case` (the strings compared in the claims are
ASCII, where byte-wise and character-wise comparison coincide). -/
def eqIgnoreAsciiCase (a b : List Char) : Bool :=
  a.map asciiLower == b.map asciiLower

/-- Rust `char::is_whitespace`: the Unicode `White_Space` property. -/
def isRustWhitespace (c : Char) : Bool :=
  let n := c.toNat
  (0x09 ≤ n ∧ n ≤ 0x0D) ∨ n = 0x20 ∨ n = 0x85 ∨ n = 0xA0 ∨ n = 0x1680 ∨
    (0x2000 ≤ n ∧ n ≤ 0x200A) ∨ n = 0x2028 ∨ n = 0x2029 ∨ n = 0x202F ∨
    n = 0x205F ∨ n = 0x3000

/-- Rust `str::trim`: drop `White_Space` characters from both ends. -/
def rustTrim (s : List Char) : List Char :=
  ((s.dropWhile isRustWhitespace).reverse.dropWhile isRustWhitespace).reverse

/-! ## The arena tree (`src/hql/src/tree.rs`)

`NodeID` is a `usize` newtype; we use `Nat` directly.  `Node<T>` keeps the
same five link fields. -/

structure Node (T : Type) where
  id : Nat
  data : T
  parent : Option Nat
  children : Option (Nat × Nat)
  previous_sibling : Option Nat
  next_sibling : Option Nat
deriving DecidableEq, Repr

/-- `Node::orphan` -/
def Node.orphan {T : Type} (id : Nat) (data : T) : Node T :=
  { id := id, data := data, parent := none, children := none,
    previous_sibling := none, next_sibling := none }

structure Tree (T : Type) where
  nodes : List (Node T)
deriving DecidableEq, Repr

namespace Tree

variable {T : Type}

/-- `Tree::new`: a single orphan root at handle 0. -/
def new (root : T) : Tree T :=
  { nodes := [Node.orphan 0 root] }

/-- `Tree::node_ref`: bounds-checked indexed access (`Vec::get`). -/
def node_ref (t : Tree T) (id : Nat) : Option (Node T) :=
  t.nodes.get? id

/-- Replace the node stored at index `i` by `f` of it; no-op when `i` is out
of range.  This is the effect of a field update through
`Tree::node_mut_ref(i).unwrap()` (all call sites below reach it only when the
index is in range, matching the Rust panics-free paths exercised here). -/
def modifyNode (t : Tree T) (i : Nat) (f : Node T → Node T) : Tree T :=
  match t.nodes.get? i with
  | some n => { nodes := t.nodes.set i (f n) }
  | none => t

/-- `Tree::orphan_node`: append an orphan whose handle is the current length;
also returns the fresh handle (Rust returns the node reference). -/
def orphan_node (t : Tree T) (data : T) : Tree T × Nat :=
  ({ nodes := t.nodes ++ [Node.orphan t.nodes.length data] }, t.nodes.length)

/-- `Tree::root_ref` -/
def root_ref (t : Tree T) : Option (Node T) :=
  t.node_ref 0

/-- `Tree::parent_ref`: the node of `id`'s `parent` link. -/
def parent_ref (t : Tree T) (id : Nat) : Option (Node T) :=
  match t.node_ref id with
  | none => none
  | some n =>
    match n.parent with
    | none => none
    | some p => t.node_ref p

/-- `Tree::children_range` -/
def children_range (t : Tree T) (parent : Nat) : Option (Nat × Nat) :=
  (t.node_ref parent).bind (fun n => n.children)

/-- `Tree::insert_id_before`: insert `new_sib_id` as the new previous sibling
of `node_id`.  Mirrors the Rust statement order; the `none` branches tagged
"unwrap" model Rust panics. -/
def insert_id_before (t : Tree T) (node_id new_sib_id : Nat) :
    Tree T × Option Unit :=
  match t.parent_ref node_id with
  | none => (t, none)
  | some parentNode =>
    let parent_id := parentNode.id
    match t.node_ref node_id with
    | none => (t, none)
    | some node =>
      let old_sib := node.previous_sibling
      match t.node_ref new_sib_id with
      | none => (t, none) -- unwrap of node_mut_ref(new_sib_id)
      | some _ =>
        let t1 := t.modifyNode new_sib_id (fun n =>
          { n with previous_sibling := old_sib, next_sibling := some node_id,
                   parent := some parent_id })
        match old_sib with
        | some old_sib_id =>
          match t1.node_ref old_sib_id with
          | none => (t1, none) -- unwrap of node_mut_ref(old_sib_id)
          | some _ =>
            let t2 := t1.modifyNode old_sib_id (fun n =>
              { n with next_sibling := some new_sib_id })
            let t3 := t2.modifyNode node_id (fun n =>
              { n with previous_sibling := some new_sib_id })
            (t3, some ())
        | none =>
          match (t1.node_ref parent_id).bind (fun n => n.children) with
          | none => (t1, none) -- unwrap of node_mut_ref/children
          | some fl =>
            let t2 := t1.modifyNode parent_id (fun n =>
              { n with children := some (new_sib_id, fl.2) })
            let t3 := t2.modifyNode node_id (fun n =>
              { n with previous_sibling := some new_sib_id })
            (t3, some ())

/-- `Tree::detach`.  Note the source computes
`parent_id = self.parent_ref(node_id).and_then(|n| n.parent)`, i.e. the
*grandparent* handle, and then repairs the `children` tuple of the node stored
at that handle; the embedding reproduces this faithfully. -/
def detach (t : Tree T) (node_id : Nat) : Tree T × Option Unit :=
  match t.node_ref node_id with
  | none => (t, none)
  | some node0 =>
    match (t.parent_ref node_id).bind (fun n => n.parent) with
    | none => (t, some ())
    | some parent_id =>
      let prev_sibling_id := node0.previous_sibling
      let next_sibling_id := node0.next_sibling
      let t1 := t.modifyNode node_id (fun n =>
        { n with parent := none, previous_sibling := none,
                 next_sibling := none })
      let t2 := match prev_sibling_id with
        | some p => t1.modifyNode p (fun n =>
            { n with next_sibling := next_sibling_id })
        | none => t1
      let t3 := match next_sibling_id with
        | some nx => t2.modifyNode nx (fun n =>
            { n with previous_sibling := prev_sibling_id })
        | none => t2
      match (t3.node_ref parent_id).bind (fun n => n.children) with
      | none => (t3, none) -- unwrap of parent.children
      | some fl =>
        if fl.1 = fl.2 then
          (t3.modifyNode parent_id (fun n => { n with children := none }),
            some ())
        else if fl.1 = node_id then
          match next_sibling_id with
          | none => (t3, none) -- unwrap of next_sibling_id
          | some nx =>
            (t3.modifyNode parent_id (fun n =>
              { n with children := some (nx, fl.2) }), some ())
        else if fl.2 = node_id then
          match prev_sibling_id with
          | none => (t3, none) -- unwrap of prev_sibling_id
          | some pv =>
            (t3.modifyNode parent_id (fun n =>
              { n with children := some (fl.1, pv) }), some ())
        else (t3, some ())

/-- `Tree::append_child_id`: detach `child`, then link it as the last child of
`target`. -/
def append_child_id (t : Tree T) (target child : Nat) : Tree T × Option Unit :=
  match t.node_ref child with
  | none => (t, none)
  | some _ =>
    match t.node_ref target with
    | none => (t, none)
    | some _ =>
      let t0 := (t.detach child).1
      match t0.children_range target with
      | some fl =>
        let t1 := t0.modifyNode child (fun n =>
          { n with parent := some target, previous_sibling := some fl.2,
                   next_sibling := none })
        let t2 := t1.modifyNode fl.2 (fun n =>
          { n with next_sibling := some child })
        let t3 := t2.modifyNode target (fun n =>
          { n with children := some (fl.1, child) })
        (t3, some ())
      | none =>
        let t1 := t0.modifyNode child (fun n =>
          { n with parent := some target, previous_sibling := none,
                   next_sibling := none })
        let t2 := t1.modifyNode target (fun n =>
          { n with children := some (child, child) })
        (t2, some ())

/-- `Tree::append_child`: allocate an orphan for `child` and append it. -/
def append_child (t : Tree T) (target : Nat) (child : T) : Tree T × Option Unit :=
  let p := t.orphan_node child
  p.1.append_child_id target p.2

/-- The do-while loop of `Tree::reparent_from_id_append`: starting from the
first child, set each chain member's `parent` to `new_parent`, following
`next_sibling` until `None`.  The Rust loop terminates on every acyclic
sibling chain; `fuel` (instantiated with more than the node count) bounds the
walk in the embedding. -/
def reparentLoop (t : Tree T) (new_parent : Nat) :
    Nat → Option Nat → Tree T
  | 0, _ => t
  | _ + 1, none => t
  | fuel + 1, some c =>
    match t.node_ref c with
    | none => t -- unwrap of node_mut_ref(child)
    | some cn =>
      let t1 := t.modifyNode c (fun n => { n with parent := some new_parent })
      reparentLoop t1 new_parent fuel cn.next_sibling

/-- `Tree::reparent_from_id_append`: move the children of `node` to the end of
`new_parent`'s child list.  (The source never clears `node`'s own `children`
tuple; the embedding reproduces this.) -/
def reparent_from_id_append (t : Tree T) (node new_parent : Nat) :
    Tree T × Option Unit :=
  match t.node_ref node with
  | none => (t, none)
  | some _ =>
    match t.node_ref new_parent with
    | none => (t, none)
    | some _ =>
      match t.children_range node with
      | none => (t, some ())
      | some fl =>
        let t1 := reparentLoop t new_parent (t.nodes.length + 1) (some fl.1)
        match t1.children_range new_parent with
        | some nfl =>
          let t2 := t1.modifyNode new_parent (fun n =>
            { n with children := some (nfl.1, fl.2) })
          let t3 := t2.modifyNode fl.1 (fun n =>
            { n with previous_sibling := some nfl.2 })
          let t4 := t3.modifyNode nfl.2 (fun n =>
            { n with next_sibling := some fl.1 })
          (t4, some ())
        | none =>
          (t1.modifyNode new_parent (fun n =>
            { n with children := some fl }), some ())

end Tree

/-! ## Traversal iterators (`src/hql/src/tree.rs`)

Rust iterators are embedded as fuel-indexed list producers: one fuel unit per
`next()` call.  On every tree the claims exercise, a fuel larger than the
number of yielded items reproduces the iterator's full output. -/

variable {T : Type}

/-- The cursor advance of `ChildrenTraverse::next`. -/
def sibStep (t : Tree T) (reversed : Bool) (cur : Node T) : Option (Node T) :=
  match reversed with
  | true => cur.previous_sibling.bind t.node_ref
  | false => cur.next_sibling.bind t.node_ref

def childrenTraverseAux (t : Tree T) (reversed : Bool) :
    Nat → Option (Node T) → List (Node T)
  | 0, _ => []
  | _ + 1, none => []
  | fuel + 1, some cur =>
    cur :: childrenTraverseAux t reversed fuel (sibStep t reversed cur)

/-- `ChildrenTraverse::new` followed by repeated `next()`: start at the first
(resp. last, when `reversed`) child of `parent` and follow `next_sibling`
(resp. `previous_sibling`). -/
def childrenTraverse (t : Tree T) (parent : Node T) (reversed : Bool)
    (fuel : Nat) : List (Node T) :=
  childrenTraverseAux t reversed fuel
    (parent.children.bind (fun fl =>
      t.node_ref (match reversed with | false => fl.1 | true => fl.2)))

/-- The ascent loop of `PreOrderTraverse::next`: climb `parent` links, stop
with `none` at the traversal root or at a missing parent, otherwise move to
the first ancestor's `next_sibling`.  The Rust loop terminates on every
acyclic parent chain; `fuel` (instantiated with the node count) bounds it. -/
def climb (t : Tree T) (rootId : Nat) :
    Nat → Option (Node T) → Option (Node T)
  | 0, _ => none
  | _ + 1, none => none
  | fuel + 1, some p =>
    if p.id = rootId then none
    else
      match p.next_sibling with
      | some sib => t.node_ref sib
      | none => climb t rootId fuel (p.parent.bind t.node_ref)

/-- The cursor advance of `PreOrderTraverse::next`: descend to the first
child, else move to the next sibling, else climb. -/
def preStep (t : Tree T) (rootId : Nat) (cur : Node T) : Option (Node T) :=
  match cur.children with
  | some fl => t.node_ref fl.1
  | none =>
    match cur.next_sibling.bind t.node_ref with
    | some sib => some sib
    | none => climb t rootId t.nodes.length (cur.parent.bind t.node_ref)

def preOrderAux (t : Tree T) (rootId : Nat) :
    Nat → Option (Node T) → List (Node T)
  | 0, _ => []
  | _ + 1, none => []
  | fuel + 1, some cur => cur :: preOrderAux t rootId fuel (preStep t rootId cur)

/-- `PreOrderTraverse::new(tree, root)` followed by repeated `next()`. -/
def preOrderTraverse (t : Tree T) (root : Node T) (fuel : Nat) :
    List (Node T) :=
  preOrderAux t root.id fuel (some root)

/-! ## DOM payloads (`src/hql/src/html/dom.rs`)

Strings are `List Char`; a `QualName` is modelled by its local name (the
attribute names built by the selectors use the empty namespace, and the
claims compare equal-namespace names only). -/

structure Element where
  name : List Char
  attrs : List (List Char × List Char)
deriving DecidableEq, Repr

/-- `Element::id`: first attribute whose name ASCII-case-insensitively equals
"id" (the `OnceCell` memoisation is observationally the identity). -/
def Element.idAttr (e : Element) : Option (List Char) :=
  (e.attrs.find? (fun a => eqIgnoreAsciiCase a.1 "id".data)).map (fun a => a.2)

/-- `Element::get_attrs`: exact-name lookup in the attribute map. -/
def Element.get_attrs (e : Element) (name : List Char) : Option (List Char) :=
  (e.attrs.find? (fun a => a.1 == name)).map (fun a => a.2)

inductive DomNode where
  | document
  | fragment
  | doctype (name public_id system_id : List Char)
  | element (e : Element)
  | text (s : List Char)
  | comment (s : List Char)
  | processingInstruction (target data : List Char)
deriving DecidableEq, Repr

def DomNode.isElementOrText : DomNode → Bool
  | .element _ => true
  | .text _ => true
  | _ => false

/-- `ElementRef::has_id` (`src/hql/src/html/mod.rs`): the case comparison is
computed inside `map` and then discarded by `is_some()`; the embedding
reproduces this. -/
def hasId (e : Element) (id : List Char) (case_sensitive : Bool) : Bool :=
  ((e.idAttr).map (fun i =>
    match case_sensitive with
    | true => i == id
    | false => eqIgnoreAsciiCase i id)).isSome

/-- `ElementOrTextRef::traverse_subtree` for a tree-resident reference:
pre-order walk, keeping only Element and Text nodes (the `filter_map` of the
source). -/
def traverse_subtree (t : Tree DomNode) (root : Node DomNode) (fuel : Nat) :
    List (Node DomNode) :=
  (preOrderTraverse t root fuel).filter (fun n => n.data.isElementOrText)

/-! ## Node references and selector operations
(`src/hql/src/html/mod.rs`, `src/hql/src/selector`)

The attribute / id / trim selectors only read the payload carried by the
reference, so the reference is embedded as its payload (`Element` for element
references, the text content for text and phantom-text references). -/

inductive ETRef where
  | element (e : Element)
  | text (s : List Char)
  | phantomText (s : List Char)
deriving DecidableEq, Repr

/-- `AttrSelector::select`: keep an element node iff the named attribute
exists and (when a value is required) ASCII-case-insensitively equals it. -/
def attr_select (name : List Char) (val : Option (List Char)) (node : ETRef) :
    List ETRef :=
  match node with
  | .element e =>
    if (e.get_attrs name).any (fun s =>
        match val with
        | none => true
        | some v => eqIgnoreAsciiCase s v)
    then [node] else []
  | _ => []

/-- `IDSelector::select`: keep an element node iff `has_id`. -/
def id_select (id : List Char) (case_sensitive : Bool) (node : ETRef) :
    List ETRef :=
  match node with
  | .element e => if hasId e id case_sensitive then [node] else []
  | _ => []

/-- `TrimSelector::select`: elements pass through; text and phantom text are
replaced by a phantom text holding the `str::trim` of their content. -/
def trim_select (node : ETRef) : List ETRef :=
  match node with
  | .element e => [.element e]
  | .text s => [.phantomText (rustTrim s)]
  | .phantomText s => [.phantomText (rustTrim s)]

/-! ## The query-language compiler (`src/hql/src/selector/mod.rs`)

The pest grammar file `grammar.pest` is referenced by the source but is not
part of the source tree; the lexical shape of the language (pipe-separated
keyword calls with backtick-quoted string or bare numeric arguments, and
`/` / `//` path separators) is modelled from the spec, §4.4.  The functions
`parse_child`, `parse_id`, `parse_class` reproduce the argument-processing
logic of `HqlParser` from the source. -/

inductive Path where
  | single
  | travel
deriving DecidableEq, Repr

inductive SelectorEnum where
  | pathSelector (paths : List (Path × List Char))
  | attrSelector (name : List Char) (val : Option (List Char))
  | classSelector (cls : List Char) (case_sensitive : Bool)
  | idSelector (id : List Char) (case_sensitive : Bool)
  | flatSelector
  | textSelector
  | trimSelector
  | trimPrefixSelector (p : List Char)
  | trimSuffixSelector (s : List Char)
  | nthChildSelector (n : Nat) (reversed : Bool)
  | extractAttrSelector (name : List Char)
deriving DecidableEq, Repr

/-- The backquote character delimiting quoted arguments. -/
def backquoteChar : Char := Char.ofNat 96

/-- Modelled from the spec: split a character list at every occurrence of a
separator character. -/
def splitOnChar (c : Char) (l : List Char) : List (List Char) :=
  l.foldr (fun x acc =>
    match acc with
    | [] => [[x]]
    | a :: rest => if x = c then [] :: a :: rest else (x :: a) :: rest) [[]]

/-- Modelled from the spec: discard surrounding blanks of a token. -/
def trimSpaces (l : List Char) : List Char :=
  ((l.dropWhile (fun c => c = ' ')).reverse.dropWhile (fun c => c = ' ')).reverse

/-- Modelled from the spec: strip the backtick quotes of a string argument. -/
def unquote (l : List Char) : Option (List Char) :=
  match l with
  | c :: rest =>
    if c = backquoteChar then
      match rest.reverse with
      | d :: mid => if d = backquoteChar then some mid.reverse else none
      | [] => none
    else none
  | [] => none

/-- Decimal digits to `Nat` (Rust `str::parse::<usize>` on the all-digit
slices produced by the grammar). -/
def natOfDigits (l : List Char) : Nat :=
  l.foldl (fun acc c => acc * 10 + (c.toNat - 48)) 0

/-- `HqlParser::parse_child`: a leading `-` sets the reversed flag, and a
reversed positive `n` becomes the zero-based index `n - 1`. -/
def parse_child (n_str : List Char) : SelectorEnum :=
  match n_str with
  | '-' :: rest =>
    let n := natOfDigits rest
    if 0 < n then .nthChildSelector (n - 1) true
    else .nthChildSelector n false
  | l => .nthChildSelector (natOfDigits l) false

/-- `HqlParser::parse_id`: case sensitive unless the optional flag argument
is literally `0`. -/
def parse_id (id : List Char) (flag : Option (List Char)) : SelectorEnum :=
  match flag with
  | some c => if c = "0".data then .idSelector id false else .idSelector id true
  | none => .idSelector id true

/-- `HqlParser::parse_class`: same flag handling as `parse_id`. -/
def parse_class (cls : List Char) (flag : Option (List Char)) : SelectorEnum :=
  match flag with
  | some c => if c = "0".data then .classSelector cls false
    else .classSelector cls true
  | none => .classSelector cls true

/-- Modelled from the spec: the fragments of a path string split at `/`;
an empty fragment marks a `//` separator, so the following tag is a
descendant (travel) step, otherwise a single step
(`HqlParser::parse_path` / `parse_paths` over the grammar's path rule). -/
def stepsOfSplit : List (List Char) → List (Path × List Char)
  | [] => []
  | [] :: t :: rest => (Path.travel, t) :: stepsOfSplit rest
  | t :: rest => (Path.single, t) :: stepsOfSplit rest

/-- Modelled from the spec: parse a backtick-quoted path body such as
`/body//div/a` into its (step kind, tag) pairs. -/
def parsePathSteps (p : List Char) : List (Path × List Char) :=
  stepsOfSplit ((splitOnChar '/' p).drop 1)

/-- Modelled from the spec: dispatch one keyword call to the selector it
compiles to, applying the source's argument-processing helpers. -/
def parseExprArgs (kw : List Char) (args : List (List Char)) :
    Option SelectorEnum :=
  if kw = "@flat".data then
    match args with | [] => some .flatSelector | _ => none
  else if kw = "@path".data then
    match args with
    | [a] => (unquote a).map (fun p => .pathSelector (parsePathSteps p))
    | _ => none
  else if kw = "@attr".data then
    match args with
    | [a] => (unquote a).map (fun n => .attrSelector n none)
    | [a, b] => do
      let n ← unquote a
      let v ← unquote b
      some (.attrSelector n (some v))
    | _ => none
  else if kw = "@id".data then
    match args with
    | [a] => (unquote a).map (fun i => parse_id i none)
    | [a, b] => (unquote a).map (fun i => parse_id i (some b))
    | _ => none
  else if kw = "@class".data then
    match args with
    | [a] => (unquote a).map (fun c => parse_class c none)
    | [a, b] => (unquote a).map (fun c => parse_class c (some b))
    | _ => none
  else if kw = "@child".data then
    match args with
    | [a] => some (parse_child a)
    | _ => none
  else if kw = "#text".data then
    match args with | [] => some .textSelector | _ => none
  else if kw = "#trim".data then
    match args with | [] => some .trimSelector | _ => none
  else if kw = "#trimPrefix".data then
    match args with
    | [a] => (unquote a).map (fun p => .trimPrefixSelector p)
    | _ => none
  else if kw = "#trimSuffix".data then
    match args with
    | [a] => (unquote a).map (fun s => .trimSuffixSelector s)
    | _ => none
  else if kw = "@extractAttr".data then
    match args with
    | [a] => (unquote a).map (fun n => .extractAttrSelector n)
    | _ => none
  else none

/-- Modelled from the spec: one expression is a keyword followed by a
parenthesised, comma-separated argument list. -/
def parseExprStr (l : List Char) : Option SelectorEnum :=
  match splitOnChar '(' l with
  | [kw, argsPart] =>
    match argsPart.reverse with
    | c :: restRev =>
      if c = ')' then
        let argsStr := restRev.reverse
        let args := if (trimSpaces argsStr).isEmpty then []
          else (splitOnChar ',' argsStr).map trimSpaces
        parseExprArgs kw args
      else none
    | [] => none
  | _ => none

/-- `try_parse_hql` over the modelled grammar: a query is a `|`-separated
sequence of expressions; any non-conforming expression fails the parse. -/
def try_parse_hql (input : List Char) : Option (List SelectorEnum) :=
  ((splitOnChar '|' input).map trimSpaces).mapM parseExprStr

/-! ## Concrete inputs used by the claims -/

/-- A chain: root 0 with single child 1, which has single child 2. -/
def treeChain : Tree Nat :=
  (((Tree.new 0).append_child 0 1).1.append_child 1 2).1

/-- Root 0 with children 1, 2; node 1 has child 3. -/
def treeRep : Tree Nat :=
  ((((Tree.new 0).append_child 0 1).1.append_child 0 2).1.append_child 1 3).1

/-- Root 0 with children 1, 2. -/
def treeTwo : Tree Nat :=
  (((Tree.new 0).append_child 0 1).1.append_child 0 2).1

/-- Root 0 with single child 1, plus an unlinked orphan 2. -/
def treeOrphan : Tree Nat :=
  (((Tree.new 0).append_child 0 1).1.orphan_node 2).1

/-- The fixed shape of the pre-order test: root→{1,2,3}, 1→{4→{5→{6}}},
3→{7→{8,9}}, built by successive `append_child` calls; handles equal data. -/
def tree6 : Tree Nat :=
  let t := Tree.new 0
  let t := (t.append_child 0 1).1
  let t := (t.append_child 0 2).1
  let t := (t.append_child 0 3).1
  let t := (t.append_child 1 4).1
  let t := (t.append_child 4 5).1
  let t := (t.append_child 5 6).1
  let t := (t.append_child 3 7).1
  let t := (t.append_child 7 8).1
  let t := (t.append_child 7 9).1
  t

/-- A document root with two text children at handles 1 and 2. -/
def treeDoc : Tree DomNode :=
  (((Tree.new DomNode.document).append_child 0 (DomNode.text ['a'])).1.append_child
    0 (DomNode.text ['b'])).1

/-- An element carrying `target="_BLANK"`. -/
def elTarget : Element :=
  { name := "a".data, attrs := [("target".data, "_BLANK".data)] }

/-- An element carrying `id="main"`. -/
def elMain : Element :=
  { name := "div".data, attrs := [("id".data, "main".data)] }

/-- The root node value of `treeTwo`, used to start children traversals. -/
def w8parent : Node Nat :=
  { id := 0, data := 0, parent := none, children := some (1, 2),
    previous_sibling := none, next_sibling := none }

/-- The child-chain node values of `treeTwo`. -/
def w8c : List (Node Nat) :=
  [{ id := 1, data := 1, parent := some 0, children := none,
     previous_sibling := none, next_sibling := some 2 },
   { id := 2, data := 2, parent := some 0, children := none,
     previous_sibling := some 1, next_sibling := none }]

/-- The sibling link read by the forward (`false`) and reverse (`true`)
children traversal. -/
def sibSel (reversed : Bool) (n : Node T) : Option Nat :=
  match reversed with
  | true => n.previous_sibling
  | false => n.next_sibling

/-- A list of nodes forms a traversal chain: each element's selected link
resolves to the next element, and the last element's link resolves to
nothing. -/
def linkedBy [DecidableEq T] (t : Tree T) (sel : Node T → Option Nat) :
    List (Node T) → Bool
  | [] => true
  | [a] => ((sel a).bind t.node_ref) == none
  | a :: b :: rest =>
    (((sel a).bind t.node_ref) == some b) && linkedBy t sel (b :: rest)

/-! ## Helper lemmas -/

theorem get?_set_self {α : Type _} (l : List α) (i : Nat) (a : α)
    (h : i < l.length) : (l.set i a).get? i = some a := by
  induction l generalizing i with
  | nil => simp at h
  | cons x xs ih =>
    cases i with
    | zero => rfl
    | succ n =>
      simp only [List.set, List.get?]
      exact ih n (Nat.lt_of_succ_lt_succ h)

theorem get?_set_ne {α : Type _} (l : List α) (i j : Nat) (a : α)
    (h : i ≠ j) : (l.set i a).get? j = l.get? j := by
  induction l generalizing i j with
  | nil => simp [List.set]
  | cons x xs ih =>
    cases i with
    | zero =>
      cases j with
      | zero => exact absurd rfl h
      | succ m => rfl
    | succ n =>
      cases j with
      | zero => rfl
      | succ m =>
        simp only [List.set, List.get?]
        exact ih n m (fun e => h (by rw [e]))

theorem node_ref_modifyNode_self (t : Tree T) (i : Nat)
    (f : Node T → Node T) :
    (t.modifyNode i f).node_ref i = (t.node_ref i).map f := by
  unfold Tree.modifyNode
  cases h : t.nodes.get? i with
  | none =>
    unfold Tree.node_ref
    rw [h]
    rfl
  | some n =>
    unfold Tree.node_ref
    simp only [h, Option.map_some']
    obtain ⟨hlt, -⟩ := List.get?_eq_some.mp h
    exact get?_set_self _ _ _ hlt

theorem node_ref_modifyNode_ne (t : Tree T) (i j : Nat) (h : i ≠ j)
    (f : Node T → Node T) :
    (t.modifyNode i f).node_ref j = t.node_ref j := by
  unfold Tree.modifyNode Tree.node_ref
  cases hi : t.nodes.get? i with
  | none => rfl
  | some n => exact get?_set_ne _ _ _ _ h

theorem sibStep_eq (t : Tree T) (r : Bool) (n : Node T) :
    sibStep t r n = (sibSel r n).bind t.node_ref := by
  cases r <;> rfl

theorem childrenTraverseAux_eq_of_linked [DecidableEq T] (t : Tree T)
    (r : Bool) :
    ∀ (c : List (Node T)) (fuel : Nat), linkedBy t (sibSel r) c = true →
      c.length ≤ fuel → childrenTraverseAux t r fuel c.head? = c := by
  intro c
  induction c with
  | nil =>
    intro fuel _ _
    cases fuel <;> rfl
  | cons a rest ih =>
    intro fuel h hf
    cases fuel with
    | zero => simp at hf
    | succ f =>
      cases rest with
      | nil =>
        simp only [linkedBy, beq_iff_eq] at h
        show a :: childrenTraverseAux t r f (sibStep t r a) = [a]
        rw [sibStep_eq, h]
        cases f <;> rfl
      | cons b rest2 =>
        simp only [linkedBy, Bool.and_eq_true, beq_iff_eq] at h
        obtain ⟨h1, h2⟩ := h
        show a :: childrenTraverseAux t r f (sibStep t r a) = a :: b :: rest2
        rw [sibStep_eq, h1]
        have hh : some b = (b :: rest2).head? := rfl
        rw [hh]
        have hf2 : (b :: rest2).length ≤ f := by
          simpa using Nat.le_of_succ_le_succ (by simpa using hf)
        rw [ih f h2 hf2]

theorem dropWhile_head_not {α : Type _} (p : α → Bool) :
    ∀ (l : List α) (a : α) (rest : List α),
      l.dropWhile p = a :: rest → p a = false := by
  intro l
  induction l with
  | nil => intro a rest h; simp at h
  | cons x xs ih =>
    intro a rest h
    by_cases hx : p x = true
    · rw [List.dropWhile_cons, if_pos hx] at h
      exact ih a rest h
    · rw [List.dropWhile_cons, if_neg hx] at h
      cases h
      simpa using hx

theorem dropWhile_idem {α : Type _} (p : α → Bool) (l : List α) :
    (l.dropWhile p).dropWhile p = l.dropWhile p := by
  cases h : l.dropWhile p with
  | nil => simp
  | cons a rest =>
    have ha := dropWhile_head_not p l a rest h
    simp [List.dropWhile_cons, ha]

theorem dropWhile_append_last {α : Type _} (p : α → Bool) (a : α)
    (h : p a = false) (l : List α) :
    (l ++ [a]).dropWhile p = l.dropWhile p ++ [a] := by
  induction l with
  | nil => simp [List.dropWhile_cons, h]
  | cons x xs ih =>
    by_cases hx : p x = true
    · simp [List.dropWhile_cons, hx, ih]
    · simp [List.dropWhile_cons, hx]

theorem dropWhile_rustTrim (s : List Char) :
    (rustTrim s).dropWhile isRustWhitespace = rustTrim s := by
  unfold rustTrim
  cases h : s.dropWhile isRustWhitespace with
  | nil => simp
  | cons a rest =>
    have ha := dropWhile_head_not _ s a rest h
    simp only [List.reverse_cons]
    rw [dropWhile_append_last _ a ha]
    simp [List.reverse_append, List.dropWhile_cons, ha]

theorem rustTrim_idem (s : List Char) :
    rustTrim (rustTrim s) = rustTrim s := by
  have h1 := dropWhile_rustTrim s
  unfold rustTrim at h1 ⊢
  rw [h1, List.reverse_reverse, dropWhile_idem]

/-! ## Claim theorems -/

/-- C1: evaluation of `Tree::detach` at its failing inputs.  On the chain
root 0 → 1 → 2, detaching node 1 (which has parent 0) is a silent no-op, and
detaching node 2 clears node 2's links but leaves node 1's `children` tuple
stale at `(2, 2)` while clearing the `children` tuple of the *grandparent*
(the root).  The claim instead requires `detach(1)` to unlink node 1, and
`detach(2)` to clear node 1's tuple and leave the root's tuple `(1, 1)`:
the source computes `parent_id` as the grandparent handle. -/
theorem detach_repairs_grandparent_eval :
    treeChain.detach 1 = (treeChain, some ()) ∧
    (treeChain.detach 2).2 = some () ∧
    ((treeChain.detach 2).1.node_ref 2).map (fun n => n.parent) =
      some none ∧
    ((treeChain.detach 2).1.node_ref 1).map (fun n => n.children) =
      some (some (2, 2)) ∧
    ((treeChain.detach 2).1.node_ref 0).map (fun n => n.children) =
      some none := by
  decide

/-- C2: evaluation of `Tree::reparent_from_id_append` at its failing input.
On root 0 with children 1, 2 and node 1 having child 3, reparenting 1's
children onto 2 succeeds, gives node 3 parent 2 and makes `(3, 3)` the
children of node 2, but node 1's own `children` tuple is still `(3, 3)`:
the source never clears the source node's tuple, so the source is not left
childless as the claim requires. -/
theorem reparent_leaves_source_children_eval :
    (treeRep.reparent_from_id_append 1 2).2 = some () ∧
    ((treeRep.reparent_from_id_append 1 2).1.node_ref 3).map
      (fun n => n.parent) = some (some 2) ∧
    ((treeRep.reparent_from_id_append 1 2).1.node_ref 2).map
      (fun n => n.children) = some (some (3, 3)) ∧
    ((treeRep.reparent_from_id_append 1 2).1.node_ref 1).map
      (fun n => n.children) = some (some (3, 3)) := by
  decide

/-- C3: evaluation of `traverse_subtree` at its failing input.  On a
document root with text children 1 and 2, the walk started at the childless
node 1 yields node 2 as well — a sibling of the start node, outside its
subtree — because the next-sibling branch of `PreOrderTraverse::next` never
checks whether the current node is the traversal root.  The claim instead
requires the walk to yield at most node 1 itself. -/
theorem traverse_subtree_escapes_to_sibling_eval :
    (treeDoc.node_ref 1).map
      (fun n => (traverse_subtree treeDoc n 10).map (fun m => m.id)) =
      some [1, 2] := by
  decide

/-- C4: the attribute filter from `@attr` compares values
ASCII-case-insensitively, so `@attr` with required value `_blank` keeps an
element whose `target` is `_BLANK` (first conjunct, as the claim states).
But the case-sensitive id filter from `@id(Main, 1)` also KEEPS an element
whose id is `main` (second conjunct): `ElementRef::has_id` computes the
case comparison inside `map` and then discards it with `is_some()`, so any
element with an id attribute passes.  The claim requires that element to be
dropped. -/
theorem attr_filter_case_policy_eval :
    attr_select "target".data (some "_blank".data) (ETRef.element elTarget) =
      [ETRef.element elTarget] ∧
    id_select "Main".data true (ETRef.element elMain) =
      [ETRef.element elMain] := by
  decide

/-- C6: building root→{1,2,3}, 1→{4→{5→{6}}}, 3→{7→{8,9}} by successive
`append_child` calls on a fresh tree, the pre-order traversal from the root
yields exactly the data sequence [0,1,4,5,6,2,3,7,8,9] (each of the 10 nodes
exactly once, parents before children, siblings left to right). -/
theorem preorder_fixed_shape_eval :
    tree6.nodes.length = 10 ∧
    tree6.root_ref.map
      (fun r => (preOrderTraverse tree6 r 20).map (fun n => n.data)) =
      some [0, 1, 4, 5, 6, 2, 3, 7, 8, 9] ∧
    tree6.root_ref.map
      (fun r => (preOrderTraverse tree6 r 20).map (fun n => n.id)) =
      some [0, 1, 4, 5, 6, 2, 3, 7, 8, 9] := by
  decide

/-- C7: grammar round-trip.  Compiling `@flat()` yields exactly the flatten
selector; `@path` on `/body//div/a` yields the step sequence
[(single, body), (travel, div), (single, a)]; `@id` with flag `0` yields the
case-insensitive id filter for `main`; `@child(-2)` yields the nth-child
selector with reversed flag and zero-based index 1. -/
theorem grammar_round_trip_eval :
    try_parse_hql "@flat()".data = some [SelectorEnum.flatSelector] ∧
    try_parse_hql "@path(`/body//div/a`)".data =
      some [SelectorEnum.pathSelector
        [(Path.single, "body".data), (Path.travel, "div".data),
         (Path.single, "a".data)]] ∧
    try_parse_hql "@id(`main`, 0)".data =
      some [SelectorEnum.idSelector "main".data false] ∧
    try_parse_hql "@child(-2)".data =
      some [SelectorEnum.nthChildSelector 1 true] := by
  decide

/-- C9: the trim selector is idempotent — applying `#trim()` to the output
of `#trim()` (pipeline stages compose by flat-mapping) produces references
with the same content as a single application; on elements both sides pass
the element through, and on text or phantom text `str::trim` of trimmed
text is unchanged. -/
theorem trim_select_idempotent (r : ETRef) :
    (trim_select r).flatMap trim_select = trim_select r := by
  cases r with
  | element e => rfl
  | text s => simp [trim_select, rustTrim_idem]
  | phantomText s => simp [trim_select, rustTrim_idem]

/-- C10: when the sibling handle is out of range or the sibling has no
parent, `Tree::insert_id_before` returns `None` and the tree is returned
unchanged — the error path exits before any link mutation. -/
theorem insert_id_before_error_no_mutation (t : Tree T)
    (node_id new_sib_id : Nat)
    (h : t.node_ref node_id = none ∨
      ∃ n, t.node_ref node_id = some n ∧ n.parent = none) :
    t.insert_id_before node_id new_sib_id = (t, none) := by
  have hpr : t.parent_ref node_id = none := by
    rcases h with h | ⟨n, hn, hp⟩
    · simp [Tree.parent_ref, h]
    · simp [Tree.parent_ref, hn, hp]
  simp [Tree.insert_id_before, hpr]

/-- C10 witness: handle 5 is out of range for `treeTwo`, and inserting
before it returns `None` with the tree unchanged. -/
theorem insert_id_before_error_no_mutation_witness :
    treeTwo.insert_id_before 5 2 = (treeTwo, none) :=
  insert_id_before_error_no_mutation treeTwo 5 2 (Or.inl (by decide))

/-- C8: for every tree and every node whose children sibling chain is the
node list `c` (next links forwards, prev links backwards, both
`None`-terminated), the forward children traversal reversed equals the
reverse children traversal; with no children (`c = []`) both are empty. -/
theorem children_traverse_reverse_agree [DecidableEq T] (t : Tree T)
    (parent : Node T) (c : List (Node T)) (fuel : Nat)
    (hf : linkedBy t (sibSel false) c = true)
    (hb : linkedBy t (sibSel true) c.reverse = true)
    (hstart : parent.children.bind (fun fl => t.node_ref fl.1) = c.head?)
    (hend : parent.children.bind (fun fl => t.node_ref fl.2) =
      c.reverse.head?)
    (hfuel : c.length ≤ fuel) :
    (childrenTraverse t parent false fuel).reverse =
      childrenTraverse t parent true fuel := by
  have h1 : childrenTraverse t parent false fuel = c := by
    show childrenTraverseAux t false fuel
      (parent.children.bind fun fl => t.node_ref fl.1) = c
    rw [hstart]
    exact childrenTraverseAux_eq_of_linked t false c fuel hf hfuel
  have h2 : childrenTraverse t parent true fuel = c.reverse := by
    show childrenTraverseAux t true fuel
      (parent.children.bind fun fl => t.node_ref fl.2) = c.reverse
    rw [hend]
    exact childrenTraverseAux_eq_of_linked t true c.reverse fuel hb
      (by simpa using hfuel)
  rw [h1, h2]

/-- C8 witness: on root 0 of `treeTwo` with children chain [node 1, node 2],
the reversed forward traversal equals the reverse traversal. -/
theorem children_traverse_reverse_agree_witness :
    (childrenTraverse treeTwo w8parent false 2).reverse =
      childrenTraverse treeTwo w8parent true 2 :=
  children_traverse_reverse_agree treeTwo w8parent w8c 2 (by decide)
    (by decide) (by decide) (by decide) (by decide)

/-- C5 counterexample: `Tree::insert_id_before` does NOT first detach the
inserted node.  On root 0 with children 1, 2, inserting node 2 before node 1
succeeds but leaves the root's `children` tuple at `(2, 2)` and node 1's
`next_sibling` still pointing at node 2.  Had node 2 been detached first, as
the claim states, the root's tuple would be `(2, 1)` and node 1's
`next_sibling` would be `none`. -/
theorem insert_id_before_does_not_detach_counterexample :
    (treeTwo.insert_id_before 1 2).2 = some () ∧
    ((treeTwo.insert_id_before 1 2).1.node_ref 0).map (fun n => n.children) =
      some (some (2, 2)) ∧
    ((treeTwo.insert_id_before 1 2).1.node_ref 0).map (fun n => n.children) ≠
      some (some (2, 1)) ∧
    ((treeTwo.insert_id_before 1 2).1.node_ref 1).map
      (fun n => n.next_sibling) = some (some 2) := by
  decide

/-- C5 (amended): `Tree::insert_id_before` requires the sibling to already
have a parent (returning `None` otherwise) and does NOT detach the inserted
node first; provided the inserted node is unlinked (as for the fresh orphans
passed by `Tree::insert_before`) and the involved handles are distinct and
consistent, it succeeds and splices the new node immediately before the
sibling under the same parent: the new node's links point at the old
previous sibling, the sibling and the parent; the sibling's `previous_sibling`
is rewritten to the new node; when the sibling had a previous sibling, that
node's `next_sibling` is rewritten and the parent is untouched; only when
the sibling was first is the parent's `children.first` rewritten to the new
node, keeping `children.last`. -/
theorem insert_id_before_splices_unlinked (t : Tree T)
    (node_id new_sib_id : Nat) (p node snode : Node T)
    (hp : t.parent_ref node_id = some p)
    (hn : t.node_ref node_id = some node)
    (hs : t.node_ref new_sib_id = some snode)
    (hpid : node.parent = some p.id)
    (hd1 : new_sib_id ≠ node_id) (hd2 : new_sib_id ≠ p.id)
    (hd3 : node_id ≠ p.id)
    (hold : ∀ o, node.previous_sibling = some o →
      (o ≠ new_sib_id ∧ o ≠ node_id ∧ o ≠ p.id) ∧ (t.node_ref o).isSome)
    (hchild : node.previous_sibling = none → p.children.isSome) :
    (t.insert_id_before node_id new_sib_id).2 = some () ∧
    (t.insert_id_before node_id new_sib_id).1.node_ref new_sib_id =
      some { snode with previous_sibling := node.previous_sibling,
                        next_sibling := some node_id,
                        parent := some p.id } ∧
    (t.insert_id_before node_id new_sib_id).1.node_ref node_id =
      some { node with previous_sibling := some new_sib_id } ∧
    (∀ o so, node.previous_sibling = some o → t.node_ref o = some so →
      (t.insert_id_before node_id new_sib_id).1.node_ref o =
        some { so with next_sibling := some new_sib_id } ∧
      (t.insert_id_before node_id new_sib_id).1.node_ref p.id =
        t.node_ref p.id) ∧
    (∀ fst lst, node.previous_sibling = none → p.children = some (fst, lst) →
      (t.insert_id_before node_id new_sib_id).1.node_ref p.id =
        some { p with children := some (new_sib_id, lst) }) := by
  have hrefp : t.node_ref p.id = some p := by
    unfold Tree.parent_ref at hp
    simp only [hn, hpid] at hp
    exact hp
  cases hps : node.previous_sibling with
  | none =>
    obtain ⟨fl, hfl⟩ := Option.isSome_iff_exists.mp (hchild hps)
    have heq : t.insert_id_before node_id new_sib_id =
        (((t.modifyNode new_sib_id (fun n =>
            { n with previous_sibling := none,
                     next_sibling := some node_id,
                     parent := some p.id })).modifyNode p.id (fun n =>
            { n with children := some (new_sib_id, fl.2) })).modifyNode
          node_id (fun n =>
            { n with previous_sibling := some new_sib_id }), some ()) := by
      unfold Tree.insert_id_before
      simp only [hp, hn, hs, hps]
      simp only [node_ref_modifyNode_ne _ _ _ hd2, hrefp, Option.bind, hfl]
    refine ⟨by rw [heq], ?_, ?_, ?_, ?_⟩
    · rw [heq]
      show ((((t.modifyNode new_sib_id _).modifyNode p.id _).modifyNode
        node_id _).node_ref new_sib_id) = _
      rw [node_ref_modifyNode_ne _ _ _ (Ne.symm hd1),
        node_ref_modifyNode_ne _ _ _ (Ne.symm hd2),
        node_ref_modifyNode_self, hs]
      rfl
    · rw [heq]
      show ((((t.modifyNode new_sib_id _).modifyNode p.id _).modifyNode
        node_id _).node_ref node_id) = _
      rw [node_ref_modifyNode_self,
        node_ref_modifyNode_ne _ _ _ (Ne.symm hd3),
        node_ref_modifyNode_ne _ _ _ hd1, hn]
      rfl
    · intro o so ho _
      simp at ho
    · intro fst lst _ hfl2
      rw [hfl] at hfl2
      injection hfl2 with h2
      subst h2
      rw [heq]
      show ((((t.modifyNode new_sib_id _).modifyNode p.id _).modifyNode
        node_id _).node_ref p.id) = _
      rw [node_ref_modifyNode_ne _ _ _ hd3,
        node_ref_modifyNode_self,
        node_ref_modifyNode_ne _ _ _ hd2, hrefp]
      rfl
  | some o =>
    obtain ⟨⟨ho1, ho2, ho3⟩, hosome⟩ := hold o hps
    obtain ⟨so, hso⟩ := Option.isSome_iff_exists.mp hosome
    have heq : t.insert_id_before node_id new_sib_id =
        (((t.modifyNode new_sib_id (fun n =>
            { n with previous_sibling := some o,
                     next_sibling := some node_id,
                     parent := some p.id })).modifyNode o (fun n =>
            { n with next_sibling := some new_sib_id })).modifyNode
          node_id (fun n =>
            { n with previous_sibling := some new_sib_id }), some ()) := by
      unfold Tree.insert_id_before
      simp only [hp, hn, hs, hps]
      simp only [node_ref_modifyNode_ne _ _ _ (Ne.symm ho1), hso]
    refine ⟨by rw [heq], ?_, ?_, ?_, ?_⟩
    · rw [heq]
      show ((((t.modifyNode new_sib_id _).modifyNode o _).modifyNode
        node_id _).node_ref new_sib_id) = _
      rw [node_ref_modifyNode_ne _ _ _ (Ne.symm hd1),
        node_ref_modifyNode_ne _ _ _ ho1,
        node_ref_modifyNode_self, hs]
      rfl
    · rw [heq]
      show ((((t.modifyNode new_sib_id _).modifyNode o _).modifyNode
        node_id _).node_ref node_id) = _
      rw [node_ref_modifyNode_self,
        node_ref_modifyNode_ne _ _ _ ho2,
        node_ref_modifyNode_ne _ _ _ hd1, hn]
      rfl
    · intro o' so' ho' hso'
      have hoo : o = o' := Option.some_inj.mp ho'
      subst hoo
      have hsoeq : so' = so := by
        rw [hso] at hso'
        exact (Option.some_inj.mp hso').symm
      subst hsoeq
      constructor
      · rw [heq]
        show ((((t.modifyNode new_sib_id _).modifyNode o _).modifyNode
          node_id _).node_ref o) = _
        rw [node_ref_modifyNode_ne _ _ _ (Ne.symm ho2),
          node_ref_modifyNode_self,
          node_ref_modifyNode_ne _ _ _ (Ne.symm ho1), hso]
        rfl
      · rw [heq]
        show ((((t.modifyNode new_sib_id _).modifyNode o _).modifyNode
          node_id _).node_ref p.id) = _
        rw [node_ref_modifyNode_ne _ _ _ hd3,
          node_ref_modifyNode_ne _ _ _ ho3,
          node_ref_modifyNode_ne _ _ _ hd2]
    · intro fst lst hnone _
      simp at hnone

/-- C5 witness: on root 0 with child 1 and unlinked orphan 2, inserting 2
before 1 succeeds and splices 2 as the new first child. -/
theorem insert_id_before_splices_unlinked_witness :
    (treeOrphan.insert_id_before 1 2).2 = some () ∧
    (treeOrphan.insert_id_before 1 2).1.node_ref 2 =
      some { id := 2, data := 2, parent := some 0, children := none,
             previous_sibling := none, next_sibling := some 1 } ∧
    (treeOrphan.insert_id_before 1 2).1.node_ref 1 =
      some { id := 1, data := 1, parent := some 0, children := none,
             previous_sibling := some 2, next_sibling := none } ∧
    (∀ o so,
      (none : Option Nat) = some o → treeOrphan.node_ref o = some so →
      (treeOrphan.insert_id_before 1 2).1.node_ref o =
        some { so with next_sibling := some 2 } ∧
      (treeOrphan.insert_id_before 1 2).1.node_ref 0 =
        treeOrphan.node_ref 0) ∧
    (∀ fst lst, (none : Option Nat) = none →
      (some (1, 1) : Option (Nat × Nat)) = some (fst, lst) →
      (treeOrphan.insert_id_before 1 2).1.node_ref 0 =
        some { id := 0, data := 0, parent := none,
               children := some (2, lst), previous_sibling := none,
               next_sibling := none }) :=
  insert_id_before_splices_unlinked treeOrphan 1 2
    { id := 0, data := 0, parent := none, children := some (1, 1),
      previous_sibling := none, next_sibling := none }
    { id := 1, data := 1, parent := some 0, children := none,
      previous_sibling := none, next_sibling := none }
    { id := 2, data := 2, parent := none, children := none,
      previous_sibling := none, next_sibling := none }
    (by decide) (by decide) (by decide) (by decide) (by decide) (by decide)
    (by decide) (fun o ho => by cases ho) (fun _ => by decide)

end Hql
